import Mathlib

/-!
# Verification of the `claudeprofile` profile-store core

This file gives a shallow embedding, in Lean 4, of the profile-store and
editor-flow core of the `cc-helper` (claudeprofile) repository, and proves
or refutes the specification claims about it.

The repository contains several parallel implementations of the same store:
* `src/fs.ts` (part_007): `slugify`, `loadProfiles`, `saveProfile`,
  `removeProviderProfiles` over a profiles directory;
* the standalone CLI (part_000): `toProfileFileKey`, `loadProfiles`,
  `saveProfile`, `getProfile`, `getProfileByName`, `getProfileByFileKey`,
  `configureProvider`;
* `src/config.ts`: class `LocalProfileStore` with `listProfiles`,
  `getProfile`, `saveProfile`, `deleteProfile`;
* `src/cli.ts`: a simpler `configureProvider` / `saveProfile`;
* the ink UI (part_003/part_004): `ProfileEditorView` and its completion
  handler.

Modelling conventions:
* A profile file's parsed JSON payload is `ParsedJson`: the three fields the
  code reads (`name`, `provider`, `env`), each `Option` to model an absent
  key.  A file is `FileContent.invalid` when `readJSONSync` would throw.
* The profiles directory is an association list `Dir` from filename to
  `FileContent`; a present directory is `some d`, a missing one `none`
  (`fs.existsSync` false).
* JS strings are Lean `String`s; `toLowerCase`/`trim` are modelled
  characterwise with `Char.toLower`/`Char.isWhitespace` (ASCII-faithful).
* JS `x || y` on a possibly-absent string field is `jsOr` (absent and the
  empty string are the only falsy strings that can occur here).
* `readdirSync(...).sort()` is modelled by a stable insertion sort with the
  default JS string comparator (lexicographic by character code).
-/

/-! ## Character and string utilities -/

/-- The regex character class `[a-z0-9]` used by `slugify` /
`toProfileFileKey` (lower-case ASCII letters and digits), by code point. -/
def isSlugChar (c : Char) : Bool :=
  (97 ≤ c.toNat && c.toNat ≤ 122) || (48 ≤ c.toNat && c.toNat ≤ 57)

/-- JS `s.toLowerCase()`, characterwise. -/
def lowerStr (s : String) : String :=
  ⟨s.data.map Char.toLower⟩

/-- Strip leading and trailing whitespace from a character list
(JS `String.prototype.trim`). -/
def trimChars (l : List Char) : List Char :=
  ((l.dropWhile Char.isWhitespace).reverse.dropWhile Char.isWhitespace).reverse

/-- JS `s.trim()`. -/
def jsTrim (s : String) : String :=
  ⟨trimChars s.data⟩

/-- JS `s.endsWith(suffix)`. -/
def strEndsWith (s suffix : String) : Bool :=
  suffix.data.isSuffixOf s.data

/-- Strict lexicographic comparison of character lists by code point: the
order underlying the default JS `Array.prototype.sort` comparator on
strings. -/
def charListLt : List Char → List Char → Bool
  | _, [] => false
  | [], _ :: _ => true
  | a :: as, b :: bs => a < b || (a = b && charListLt as bs)

/-- `a` sorts no later than `b` under the default JS string comparator. -/
def strLe (a b : String) : Bool :=
  !charListLt b.data a.data

/-- Insert into a sorted list, keeping stability (equal keys keep their
relative order, as ES2019 `sort` guarantees). -/
def insertSorted (a : String) : List String → List String
  | [] => [a]
  | b :: l => if strLe a b then a :: b :: l else b :: insertSorted a l

/-- `readdirSync(dir).sort()`: the filenames in ascending JS string order. -/
def sortNames : List String → List String
  | [] => []
  | a :: l => insertSorted a (sortNames l)

/-! ## `slugify` (src/fs.ts) and `toProfileFileKey` (part_000)

```js
return name
  .toLowerCase()
  .replace(/[^a-z0-9]+/g, '-')
  .replace(/^-+|-+$/g, '') || 'profile';
```

The first `replace` turns every maximal run of non-`[a-z0-9]` characters
into a single `'-'`; this is modelled as a characterwise map to `'-'`
(`hyphenate`) followed by collapsing adjacent hyphens (`squeeze`), which
agrees because `'-'` itself is not in `[a-z0-9]`.  The second `replace`
strips leading and trailing hyphen runs (`trimHyphens`). -/

/-- Map every character outside `[a-z0-9]` to `'-'`. -/
def hyphenate (l : List Char) : List Char :=
  l.map (fun c => if isSlugChar c then c else '-')

/-- Collapse every run of adjacent `'-'` characters to a single `'-'`. -/
def squeeze : List Char → List Char
  | [] => []
  | [c] => [c]
  | c :: d :: rest =>
    if c = '-' ∧ d = '-' then squeeze (d :: rest)
    else c :: squeeze (d :: rest)

/-- Strip the leading and trailing runs of `'-'` (regex `/^-+|-+$/g`). -/
def trimHyphens (l : List Char) : List Char :=
  ((l.dropWhile (· = '-')).reverse.dropWhile (· = '-')).reverse

/-- `slugify` from src/fs.ts (part_007). -/
def slugify (name : String) : String :=
  let t := trimHyphens (squeeze (hyphenate (lowerStr name).data))
  if t.isEmpty then "profile" else ⟨t⟩

/-- `toProfileFileKey` from part_000: identical to `slugify` except that the
input is `trim()`-ed first. -/
def toProfileFileKey (name : String) : String :=
  let t := trimHyphens (squeeze (hyphenate (lowerStr (jsTrim name)).data))
  if t.isEmpty then "profile" else ⟨t⟩

/-- No two adjacent characters of the list are both `'-'`. -/
def noDoubleHyphen : List Char → Bool
  | [] => true
  | [_] => true
  | c :: d :: rest => !(c = '-' && d = '-') && noDoubleHyphen (d :: rest)

/-- The well-formedness predicate the spec asserts of slugs: only lower-case
ASCII alphanumerics and hyphens, single hyphens only, and no leading or
trailing hyphen. -/
def goodSlug (l : List Char) : Bool :=
  l.all (fun c => isSlugChar c || c = '-') &&
  noDoubleHyphen l &&
  (match l.head? with
   | some c => !(c = '-')
   | none => true) &&
  (match l.getLast? with
   | some c => !(c = '-')
   | none => true)

example : slugify "My GLM" = "my-glm" := by decide
example : slugify "???" = "profile" := by decide
example : slugify "--a--b--" = "a-b" := by decide
example : toProfileFileKey "  My GLM  " = "my-glm" := by decide

/-! ## Structural lemmas about `slugify` -/

theorem mem_hyphenate {l : List Char} {c : Char} (h : c ∈ hyphenate l) :
    (isSlugChar c || c = '-') = true := by
  unfold hyphenate at h
  rcases List.mem_map.1 h with ⟨a, _, rfl⟩
  by_cases ha : isSlugChar a <;> simp [ha]

theorem mem_squeeze : ∀ {l : List Char} {c : Char}, c ∈ squeeze l → c ∈ l
  | [], _, h => by simp [squeeze] at h
  | [_], _, h => by simpa [squeeze] using h
  | a :: b :: rest, c, h => by
    unfold squeeze at h
    split at h
    · exact List.mem_cons_of_mem _ (mem_squeeze h)
    · rcases List.mem_cons.1 h with rfl | h'
      · exact List.mem_cons_self _ _
      · exact List.mem_cons_of_mem _ (mem_squeeze h')

theorem squeeze_cons : ∀ (c : Char) (l : List Char), ∃ t, squeeze (c :: l) = c :: t
  | _, [] => ⟨[], rfl⟩
  | c, d :: rest => by
    by_cases h : c = '-' ∧ d = '-'
    · obtain ⟨t, ht⟩ := squeeze_cons d rest
      exact ⟨t, by rw [squeeze, if_pos h, ht, h.1, h.2]⟩
    · exact ⟨squeeze (d :: rest), by rw [squeeze, if_neg h]⟩

theorem noDoubleHyphen_squeeze : ∀ l : List Char, noDoubleHyphen (squeeze l) = true
  | [] => rfl
  | [c] => rfl
  | c :: d :: rest => by
    have ih := noDoubleHyphen_squeeze (d :: rest)
    by_cases h : c = '-' ∧ d = '-'
    · rw [squeeze, if_pos h]; exact ih
    · rw [squeeze, if_neg h]
      obtain ⟨t, ht⟩ := squeeze_cons d rest
      rw [ht]
      rw [ht] at ih
      have hcd : (c = '-' && d = '-') = false := by
        by_cases hc : c = '-' <;> by_cases hd : d = '-' <;>
          simp [hc, hd] at h ⊢
      simp [noDoubleHyphen, hcd, ih]

theorem squeeze_eq_self : ∀ l : List Char, noDoubleHyphen l = true → squeeze l = l
  | [], _ => rfl
  | [_], _ => rfl
  | c :: d :: rest, h => by
    unfold noDoubleHyphen at h
    rw [Bool.and_eq_true] at h
    rcases h with ⟨h1, h2⟩
    have hcd : ¬(c = '-' ∧ d = '-') := by
      intro ⟨hc, hd⟩; simp [hc, hd] at h1
    rw [squeeze, if_neg hcd, squeeze_eq_self (d :: rest) h2]

theorem head?_dropWhile_char {p : Char → Bool} :
    ∀ {l : List Char} {c : Char}, (l.dropWhile p).head? = some c → p c = false
  | [], _, h => by simp at h
  | a :: l, c, h => by
    by_cases ha : p a
    · rw [List.dropWhile_cons, if_pos ha] at h
      exact head?_dropWhile_char h
    · rw [List.dropWhile_cons, if_neg ha] at h
      cases h
      exact Bool.eq_false_iff.2 ha

theorem dropWhile_decomp (p : Char → Bool) (l : List Char) :
    ∃ t, l = t ++ l.dropWhile p := by
  induction l with
  | nil => exact ⟨[], rfl⟩
  | cons a l ih =>
    by_cases ha : p a
    · obtain ⟨t, ht⟩ := ih
      exact ⟨a :: t, by rw [List.dropWhile_cons, if_pos ha]; simpa using ht⟩
    · exact ⟨[], by rw [List.dropWhile_cons, if_neg ha]; rfl⟩

theorem noDoubleHyphen_tail {x : Char} {xs : List Char}
    (h : noDoubleHyphen (x :: xs) = true) : noDoubleHyphen xs = true := by
  cases xs with
  | nil => rfl
  | cons y ys =>
    rw [noDoubleHyphen, Bool.and_eq_true] at h
    exact h.2

theorem noDoubleHyphen_append_right :
    ∀ {l₁ l₂ : List Char}, noDoubleHyphen (l₁ ++ l₂) = true → noDoubleHyphen l₂ = true
  | [], _, h => h
  | _ :: _, _, h => noDoubleHyphen_append_right (noDoubleHyphen_tail h)

theorem noDoubleHyphen_append_left :
    ∀ {l₁ l₂ : List Char}, noDoubleHyphen (l₁ ++ l₂) = true → noDoubleHyphen l₁ = true
  | [], _, _ => rfl
  | [_], _, _ => rfl
  | a :: b :: l₁, l₂, h => by
    rw [List.cons_append, List.cons_append] at h
    rw [noDoubleHyphen, Bool.and_eq_true] at h
    rw [noDoubleHyphen, Bool.and_eq_true]
    refine ⟨h.1, @noDoubleHyphen_append_left (b :: l₁) l₂ ?_⟩
    rw [List.cons_append]
    exact h.2

theorem trimHyphens_decomp (l : List Char) :
    ∃ t k, l = t ++ (trimHyphens l ++ k) := by
  obtain ⟨t, ht⟩ := dropWhile_decomp (· = '-') l
  obtain ⟨k', hk⟩ := dropWhile_decomp (· = '-') (l.dropWhile (· = '-')).reverse
  refine ⟨t, k'.reverse, ?_⟩
  have hm : l.dropWhile (· = '-') = trimHyphens l ++ k'.reverse := by
    have := congrArg List.reverse hk
    simpa [List.reverse_append, trimHyphens] using this
  calc l = t ++ l.dropWhile (· = '-') := ht
    _ = t ++ (trimHyphens l ++ k'.reverse) := by rw [hm]

theorem mem_trimHyphens {l : List Char} {c : Char} (h : c ∈ trimHyphens l) : c ∈ l := by
  obtain ⟨t, k, heq⟩ := trimHyphens_decomp l
  rw [heq]
  exact List.mem_append_right _ (List.mem_append_left _ h)

theorem noDoubleHyphen_trimHyphens {l : List Char} (h : noDoubleHyphen l = true) :
    noDoubleHyphen (trimHyphens l) = true := by
  obtain ⟨t, k, heq⟩ := trimHyphens_decomp l
  rw [heq] at h
  exact noDoubleHyphen_append_left (noDoubleHyphen_append_right h)

theorem head?_trimHyphens {l : List Char} {c : Char}
    (h : (trimHyphens l).head? = some c) : c ≠ '-' := by
  obtain ⟨k', hk⟩ := dropWhile_decomp (· = '-') (l.dropWhile (· = '-')).reverse
  have hm : l.dropWhile (· = '-') = trimHyphens l ++ k'.reverse := by
    have := congrArg List.reverse hk
    simpa [List.reverse_append, trimHyphens] using this
  cases htr : trimHyphens l with
  | nil => rw [htr] at h; simp at h
  | cons c' t' =>
    rw [htr, List.head?_cons] at h
    have hhead : (l.dropWhile (· = '-')).head? = some c' := by
      rw [hm, htr, List.cons_append, List.head?_cons]
    have hc' := head?_dropWhile_char hhead
    cases h
    simpa using hc'

theorem getLast?_trimHyphens {l : List Char} {c : Char}
    (h : (trimHyphens l).getLast? = some c) : c ≠ '-' := by
  have hrev : (trimHyphens l).reverse.head? = some c := by
    rw [List.head?_reverse]; exact h
  have hx : (trimHyphens l).reverse = (l.dropWhile (· = '-')).reverse.dropWhile (· = '-') := by
    simp [trimHyphens]
  rw [hx] at hrev
  have := head?_dropWhile_char hrev
  simpa using this

theorem goodSlug_pipeline {u : List Char}
    (hall : ∀ c ∈ u, (isSlugChar c || c = '-') = true) :
    goodSlug (trimHyphens (squeeze u)) = true := by
  have h1 : (trimHyphens (squeeze u)).all (fun c => isSlugChar c || c = '-') = true := by
    rw [List.all_eq_true]
    intro c hc
    exact hall c (mem_squeeze (mem_trimHyphens hc))
  have h2 : noDoubleHyphen (trimHyphens (squeeze u)) = true :=
    noDoubleHyphen_trimHyphens (noDoubleHyphen_squeeze u)
  have h3 : (match (trimHyphens (squeeze u)).head? with
      | some c => !(c = '-')
      | none => true) = true := by
    cases hh : (trimHyphens (squeeze u)).head? with
    | none => rfl
    | some c => simpa using head?_trimHyphens hh
  have h4 : (match (trimHyphens (squeeze u)).getLast? with
      | some c => !(c = '-')
      | none => true) = true := by
    cases hh : (trimHyphens (squeeze u)).getLast? with
    | none => rfl
    | some c => simpa using getLast?_trimHyphens hh
  rw [goodSlug, h1, h2, h3, h4]
  rfl

theorem slugify_good (s : String) :
    goodSlug (slugify s).data = true ∧ slugify s ≠ "" := by
  unfold slugify
  by_cases h : (trimHyphens (squeeze (hyphenate (lowerStr s).data))).isEmpty
  · rw [if_pos h]
    exact ⟨by decide, by decide⟩
  · rw [if_neg h]
    refine ⟨goodSlug_pipeline (fun c hc => mem_hyphenate hc), ?_⟩
    intro hcontra
    have : trimHyphens (squeeze (hyphenate (lowerStr s).data)) = [] :=
      congrArg String.data hcontra
    rw [this] at h
    exact h rfl

theorem toLower_eq_self {c : Char} (h : (isSlugChar c || c = '-') = true) :
    c.toLower = c := by
  rw [Bool.or_eq_true] at h
  rcases h with h | h
  · unfold isSlugChar at h
    rw [Bool.or_eq_true] at h
    show (if c.toNat ≥ 65 ∧ c.toNat ≤ 90 then Char.ofNat (c.toNat + 32) else c) = c
    rcases h with h | h <;>
    · rw [Bool.and_eq_true] at h
      have h1 := of_decide_eq_true h.1
      have h2 := of_decide_eq_true h.2
      rw [if_neg (by omega)]
  · have : c = '-' := of_decide_eq_true h
    subst this
    decide

theorem dropWhile_eq_self_of_head {p : Char → Bool} :
    ∀ {l : List Char}, (∀ c, l.head? = some c → p c = false) → l.dropWhile p = l
  | [], _ => rfl
  | a :: l, h => by
    rw [List.dropWhile_cons, if_neg]
    simp [h a rfl]

theorem trimHyphens_eq_self {l : List Char}
    (hh : (match l.head? with | some c => !(c = '-') | none => true) = true)
    (hl : (match l.getLast? with | some c => !(c = '-') | none => true) = true) :
    trimHyphens l = l := by
  have h1 : l.dropWhile (· = '-') = l := by
    apply dropWhile_eq_self_of_head
    intro c hc
    rw [hc] at hh
    simpa using hh
  have h2 : l.reverse.dropWhile (· = '-') = l.reverse := by
    apply dropWhile_eq_self_of_head
    intro c hc
    rw [List.head?_reverse] at hc
    rw [hc] at hl
    simpa using hl
  unfold trimHyphens
  rw [h1, h2, List.reverse_reverse]

theorem slugify_of_goodSlug {y : String} (hg : goodSlug y.data = true) (hne : y ≠ "") :
    slugify y = y := by
  rw [goodSlug, Bool.and_eq_true, Bool.and_eq_true, Bool.and_eq_true] at hg
  obtain ⟨⟨⟨hall, hnd⟩, hh⟩, hl⟩ := hg
  rw [List.all_eq_true] at hall
  have hlow : lowerStr y = y := by
    unfold lowerStr
    refine congrArg String.mk ?_
    calc y.data.map Char.toLower
        = y.data.map id := List.map_congr_left (fun c hc => toLower_eq_self (hall c hc))
      _ = y.data := List.map_id _
  have hhyph : hyphenate y.data = y.data := by
    unfold hyphenate
    calc y.data.map (fun c => if isSlugChar c then c else '-')
        = y.data.map id := by
          apply List.map_congr_left
          intro c hc
          by_cases hs : isSlugChar c
          · simp [hs]
          · have := hall c hc
            rw [Bool.or_eq_true] at this
            rcases this with h' | h'
            · exact absurd h' hs
            · have : c = '-' := of_decide_eq_true h'
              simp [hs, this]
      _ = y.data := List.map_id _
  have hsq : squeeze y.data = y.data := squeeze_eq_self _ hnd
  have htr : trimHyphens y.data = y.data := trimHyphens_eq_self hh hl
  unfold slugify
  rw [hlow, hhyph, hsq, htr]
  have hye : ¬ y.data.isEmpty := by
    intro hd
    apply hne
    have : y.data = [] := List.isEmpty_iff.1 hd
    calc y = ⟨y.data⟩ := rfl
      _ = ⟨[]⟩ := by rw [this]
      _ = "" := rfl
  rw [if_neg hye]

/-- **C2** (confirmed).  `slugify` is idempotent; its output consists only of
lower-case ASCII alphanumerics and hyphens, with no doubled hyphen and no
leading or trailing hyphen (`goodSlug`); the output is never the empty
string; whenever the input collapses to nothing after hyphenation and
trimming, the fixed fallback token `"profile"` is returned, in particular
for `"???"`. -/
theorem slugify_spec (x : String) :
    slugify (slugify x) = slugify x
    ∧ goodSlug (slugify x).data = true
    ∧ slugify x ≠ ""
    ∧ (trimHyphens (squeeze (hyphenate (lowerStr x).data)) = [] →
        slugify x = "profile")
    ∧ slugify "???" = "profile" := by
  obtain ⟨hg, hne⟩ := slugify_good x
  refine ⟨slugify_of_goodSlug hg hne, hg, hne, ?_, by decide⟩
  intro h
  unfold slugify
  rw [h]
  rfl

/-- Witness for `slugify_spec` at concrete inputs, discharging the
collapses-to-nothing hypothesis at `"???"`. -/
theorem slugify_spec_witness :
    slugify (slugify "My GLM?") = slugify "My GLM?" ∧ slugify "???" = "profile" :=
  ⟨(slugify_spec "My GLM?").1, (slugify_spec "???").2.2.2.1 (by decide)⟩

/-! ## Data model

`Profile` is the record the TypeScript code manipulates (`fileKey` is the
optional storage slug).  `ParsedJson` is a profile file's parsed JSON
payload, restricted to the three fields the code ever reads; each field is
`Option`al to model an absent key.  `FileContent.invalid` stands for a file
on which `readJSONSync` throws.  A directory is an association list from
filename to content; the whole filesystem location is `Option Dir`, `none`
when `fs.existsSync(profilesDir)` is false. -/

structure Profile where
  name : String
  provider : String
  env : List (String × String)
  fileKey : Option String
deriving DecidableEq

structure ParsedJson where
  name : Option String
  provider : Option String
  env : Option (List (String × String))
deriving DecidableEq

inductive FileContent
  | invalid
  | json (data : ParsedJson)
deriving DecidableEq

abbrev Dir : Type := List (String × FileContent)

/-- JS `x || y` where `x` is a possibly-absent string field: absent and the
empty string fall through to the fallback (the only falsy strings). -/
def jsOr (o : Option String) (b : String) : String :=
  match o with
  | some s => if s = "" then b else s
  | none => b

/-- JS `x || y` on two strings. -/
def jsOrStr (s b : String) : String :=
  if s = "" then b else s

/-- `path.basename(filename, '.json')`: the filename with a trailing
`".json"` removed (profile filenames contain no directory separator). -/
def basename (fn : String) : String :=
  if strEndsWith fn ".json" then ⟨fn.data.take (fn.data.length - 5)⟩ else fn

/-- The "regular profile file" filter used by every listing loop:
`filename.endsWith('.json') && !filename.endsWith('.example.json')`. -/
def eligible (fn : String) : Bool :=
  strEndsWith fn ".json" && !(strEndsWith fn ".example.json")

/-- The record pushed for one parsed file (part_007 / part_000 shape;
`src/config.ts` builds the same record minus `fileKey`):
```js
{ name: data.name || path.basename(filename, '.json'),
  provider: data.provider || path.basename(filename, '.json'),
  env: data.env || {},
  fileKey: path.basename(filename, '.json') }
``` -/
def profileOfData (fn : String) (data : ParsedJson) : Profile :=
  { name := jsOr data.name (basename fn)
    provider := jsOr data.provider (basename fn)
    env := data.env.getD []
    fileKey := some (basename fn) }

/-- Update an association list at a key: replace the value in place if the
key is present (JS object assignment / overwriting file write), append
otherwise. -/
def assocSet {β : Type} : List (String × β) → String → β → List (String × β)
  | [], k, v => [(k, v)]
  | (k', v') :: rest, k, v =>
    if k' = k then (k', v) :: rest else (k', v') :: assocSet rest k v

/-! ## `loadProfiles` (part_007 `src/fs.ts` and part_000; `src/config.ts`
`listProfiles` is identical except that it omits `fileKey` and logs a
warning for a malformed file) -/

/-- The body of the listing loop, iterating over the sorted filenames:
ineligible names are skipped (`continue`), a file that fails to parse is
skipped (`catch {}`), every other file contributes one record. -/
def loadProfilesLoop (d : Dir) : List String → List Profile
  | [] => []
  | fn :: rest =>
    if eligible fn then
      match List.lookup fn d with
      | some (FileContent.json data) => profileOfData fn data :: loadProfilesLoop d rest
      | _ => loadProfilesLoop d rest
    else loadProfilesLoop d rest

/-- `loadProfiles()`: empty when the directory is missing, otherwise the
loop over `readdirSync(profilesDir).sort()`. -/
def loadProfiles (fsys : Option Dir) : List Profile :=
  match fsys with
  | none => []
  | some d => loadProfilesLoop d (sortNames (d.map Prod.fst))

/-- Spec-side listing (for the refinement claim C5), following §4.1 of the
spec: enumerate the files in sorted order, keep those passing the
regular-profile filter, parse each, and drop the ones that fail to parse. -/
def listProfilesSpec (d : Dir) : List Profile :=
  ((sortNames (d.map Prod.fst)).filter eligible).filterMap (fun fn =>
    match List.lookup fn d with
    | some (FileContent.json data) => some (profileOfData fn data)
    | _ => none)

/-! ## Lookups -/

/-- `getProfile` from part_000 (and src/cli.ts):
`profiles.find(p => p.provider === provider || p.name.toLowerCase() ===
provider.toLowerCase()) || null`. -/
def getProfile (fsys : Option Dir) (key : String) : Option Profile :=
  (loadProfiles fsys).find? (fun p =>
    p.provider == key || lowerStr p.name == lowerStr key)

/-- `getProfileByName` from part_000. -/
def getProfileByName (fsys : Option Dir) (name : String) : Option Profile :=
  (loadProfiles fsys).find? (fun p => lowerStr p.name == lowerStr name)

/-- `getProfileByFileKey` from part_000. -/
def getProfileByFileKey (fsys : Option Dir) (fileKey : String) : Option Profile :=
  (loadProfiles fsys).find? (fun p => p.fileKey == some fileKey)

/-- `LocalProfileStore.getProfile` from src/config.ts: per profile it first
compares `name` lower-cased, then `provider` lower-cased — unlike part_000
it is case-insensitive on `provider` as well. -/
def LocalProfileStore_getProfile (fsys : Option Dir) (key : String) : Option Profile :=
  (loadProfiles fsys).find? (fun p =>
    lowerStr p.name == lowerStr key || lowerStr p.provider == lowerStr key)

/-! ## Saving -/

/-- The serialized record: `{...profile}` with `fileKey` deleted, i.e. the
`name`, `provider` and `env` fields. -/
def serializeProfile (p : Profile) : FileContent :=
  FileContent.json ⟨some p.name, some p.provider, some p.env⟩

/-- `saveProfile` from part_007 `src/fs.ts`: `ensureProfilesDir()` (a
missing directory becomes an empty one), then write
`(profile.fileKey || slugify(profile.name)) + '.json'`. -/
def saveProfile (fsys : Option Dir) (p : Profile) : Dir :=
  let d := fsys.getD []
  assocSet d (jsOr p.fileKey (slugify p.name) ++ ".json") (serializeProfile p)

/-- `saveProfile` from part_000: write
`(profile.fileKey || toProfileFileKey(profile.name)) + '.json'` into the
profiles directory (part_000 does not create the directory first; its write
into an existing directory is what the claims exercise). -/
def saveProfile_000 (d : Dir) (p : Profile) : Dir :=
  assocSet d (jsOr p.fileKey (toProfileFileKey p.name) ++ ".json") (serializeProfile p)

/-- `LocalProfileStore.saveProfile` from src/config.ts: writes the record to
`` `${profile.provider}.json` `` (its `Profile` type has no `fileKey`
field, so the serialized record is again name/provider/env). -/
def LocalProfileStore_saveProfile (d : Dir) (p : Profile) : Dir :=
  assocSet d (p.provider ++ ".json") (serializeProfile p)

/-- `saveProfile` from src/cli.ts: also writes `` `${profile.provider}.json` ``. -/
def cliSaveProfile (d : Dir) (p : Profile) : Dir :=
  assocSet d (p.provider ++ ".json") (serializeProfile p)

/-! ## Bulk removal (`removeProviderProfiles`, part_007) -/

/-- Does this file parse with a `provider` field strictly equal
(`data.provider === providerId`) to the given id? -/
def providerFieldIs (providerId : String) : FileContent → Bool
  | FileContent.json data => data.provider == some providerId
  | FileContent.invalid => false

/-- Remove the (first) entry with the given filename. -/
def eraseFile (d : Dir) (fn : String) : Dir :=
  List.eraseP (fun e => e.1 == fn) d

/-- The removal loop of `removeProviderProfiles`: iterate over the
filenames returned by `readdirSync` (unsorted), skip ineligible names,
read each file (a parse failure is swallowed), and `removeSync` the file
when its `provider` field equals the id. -/
def removeLoop (providerId : String) : List String → Dir → Dir
  | [], d => d
  | fn :: rest, d =>
    if eligible fn then
      match List.lookup fn d with
      | some (FileContent.json data) =>
        if data.provider == some providerId then
          removeLoop providerId rest (eraseFile d fn)
        else removeLoop providerId rest d
      | _ => removeLoop providerId rest d
    else removeLoop providerId rest d

/-- `removeProviderProfiles(providerId)`: no-op on a missing directory. -/
def removeProviderProfiles (fsys : Option Dir) (providerId : String) : Option Dir :=
  match fsys with
  | none => none
  | some d => some (removeLoop providerId (d.map Prod.fst) d)

/-! ## `LocalProfileStore.deleteProfile` (src/config.ts) -/

/-- ```js
const profile = this.getProfile(name);
if (!profile) return false;
const filepath = path.join(this.profilesDir, `${profile.provider}.json`);
if (fs.existsSync(filepath)) fs.unlinkSync(filepath);
return true;
```
Result: the returned boolean and the directory afterwards. -/
def LocalProfileStore_deleteProfile (fsys : Option Dir) (key : String) :
    Bool × Option Dir :=
  match LocalProfileStore_getProfile fsys key with
  | none => (false, fsys)
  | some p =>
    match fsys with
    | none => (true, none)
    | some d =>
      if (List.lookup (p.provider ++ ".json") d).isSome then
        (true, some (eraseFile d (p.provider ++ ".json")))
      else (true, some d)

example :
    loadProfiles (some [("b.json", FileContent.json ⟨some "B", none, none⟩),
                        ("a.json", FileContent.json ⟨none, some "p", some [("K", "v")]⟩),
                        ("c.example.json", FileContent.json ⟨some "C", none, none⟩),
                        ("bad.json", FileContent.invalid),
                        ("notes.txt", FileContent.json ⟨some "T", none, none⟩)]) =
      [⟨"a", "p", [("K", "v")], some "a"⟩, ⟨"B", "b", [], some "b"⟩] := by decide

/-! ## Association-list and listing lemmas -/

theorem lookup_assocSet_self {β : Type} :
    ∀ (l : List (String × β)) (k : String) (v : β),
      List.lookup k (assocSet l k v) = some v
  | [], k, v => by simp [assocSet, List.lookup]
  | (k', v') :: rest, k, v => by
    by_cases h : k' = k
    · subst h
      simp [assocSet, List.lookup]
    · have hb : (k == k') = false := beq_eq_false_iff_ne.2 (fun hc => h hc.symm)
      rw [assocSet, if_neg h, List.lookup, hb]
      exact lookup_assocSet_self rest k v

theorem lookup_assocSet_ne {β : Type} :
    ∀ (l : List (String × β)) (k : String) (v : β) (k' : String), k' ≠ k →
      List.lookup k' (assocSet l k v) = List.lookup k' l
  | [], k, v, k', h => by
    have hb : (k' == k) = false := beq_eq_false_iff_ne.2 h
    simp [assocSet, List.lookup, hb]
  | (a, b) :: rest, k, v, k', h => by
    by_cases ha : a = k
    · subst ha
      have hb : (k' == a) = false := beq_eq_false_iff_ne.2 h
      rw [assocSet, if_pos rfl, List.lookup, List.lookup, hb]
    · rw [assocSet, if_neg ha, List.lookup, List.lookup]
      cases hk : (k' == a) with
      | true => rfl
      | false => exact lookup_assocSet_ne rest k v k' h

theorem mem_keys_assocSet {β : Type} :
    ∀ (l : List (String × β)) (k : String) (v : β),
      k ∈ (assocSet l k v).map Prod.fst
  | [], k, v => by simp [assocSet]
  | (a, b) :: rest, k, v => by
    by_cases ha : a = k
    · subst ha
      rw [assocSet, if_pos rfl]
      simp
    · rw [assocSet, if_neg ha]
      simpa using Or.inr (mem_keys_assocSet rest k v)

theorem mem_insertSorted {a b : String} :
    ∀ {l : List String}, a ∈ insertSorted b l ↔ a = b ∨ a ∈ l
  | [] => by simp [insertSorted]
  | c :: l => by
    rw [insertSorted]
    by_cases h : strLe b c
    · rw [if_pos h]
      simp
    · rw [if_neg h]
      simp only [List.mem_cons, mem_insertSorted (l := l)]
      tauto

theorem mem_sortNames {a : String} :
    ∀ {l : List String}, a ∈ sortNames l ↔ a ∈ l
  | [] => Iff.rfl
  | b :: l => by
    rw [sortNames, mem_insertSorted, List.mem_cons, mem_sortNames (l := l)]

theorem lookup_mem {β : Type} [BEq β] :
    ∀ {l : List (String × β)} {k : String} {v : β},
      List.lookup k l = some v → (k, v) ∈ l
  | [], _, _, h => by simp [List.lookup] at h
  | (a, b) :: rest, k, v, h => by
    rw [List.lookup] at h
    cases hk : (k == a) with
    | true =>
      rw [hk] at h
      cases h
      have : k = a := by simpa using hk
      subst this
      exact List.mem_cons_self _ _
    | false =>
      rw [hk] at h
      exact List.mem_cons_of_mem _ (lookup_mem h)

theorem loadProfilesLoop_eq_filterMap (d : Dir) :
    ∀ names : List String,
      loadProfilesLoop d names = (names.filter eligible).filterMap (fun fn =>
        match List.lookup fn d with
        | some (FileContent.json data) => some (profileOfData fn data)
        | _ => none)
  | [] => rfl
  | fn :: rest => by
    have ih := loadProfilesLoop_eq_filterMap d rest
    by_cases heli : eligible fn = true
    · cases hlk : List.lookup fn d with
      | none =>
        rw [loadProfilesLoop, if_pos heli, hlk,
          List.filter_cons_of_pos heli, List.filterMap_cons, hlk]
        exact ih
      | some c =>
        cases c with
        | invalid =>
          rw [loadProfilesLoop, if_pos heli, hlk,
            List.filter_cons_of_pos heli, List.filterMap_cons, hlk]
          exact ih
        | json data =>
          rw [loadProfilesLoop, if_pos heli, hlk,
            List.filter_cons_of_pos heli, List.filterMap_cons, hlk]
          exact congrArg (List.cons (profileOfData fn data)) ih
    · rw [loadProfilesLoop, if_neg heli,
        List.filter_cons_of_neg (by simpa using heli)]
      exact ih

theorem mem_loadProfilesLoop_iff {d : Dir} {names : List String} {p : Profile} :
    p ∈ loadProfilesLoop d names ↔
      ∃ fn, fn ∈ names ∧ eligible fn = true ∧
        ∃ data, List.lookup fn d = some (FileContent.json data) ∧
          p = profileOfData fn data := by
  rw [loadProfilesLoop_eq_filterMap, List.mem_filterMap]
  constructor
  · rintro ⟨fn, hmem, hf⟩
    rcases List.mem_filter.1 hmem with ⟨h1, h2⟩
    refine ⟨fn, h1, h2, ?_⟩
    cases hlk : List.lookup fn d with
    | none => rw [hlk] at hf; simp at hf
    | some c =>
      cases c with
      | invalid => rw [hlk] at hf; simp at hf
      | json data =>
        rw [hlk] at hf
        simp only [Option.some.injEq] at hf
        exact ⟨data, rfl, hf.symm⟩
  · rintro ⟨fn, h1, h2, data, hlk, rfl⟩
    exact ⟨fn, List.mem_filter.2 ⟨h1, h2⟩, by rw [hlk]⟩

/-- **C5** (confirmed).  A missing profiles directory yields the empty
profile list; listing a present directory equals the spec-side listing
`listProfilesSpec`, which walks the filenames in sorted order, keeps
exactly the files passing the regular-profile filter (dropping every name
ending in the reserved `.example.json` suffix and every non-`.json` name),
parses each, and silently drops the files that fail to parse — so a
malformed file never aborts the listing and all remaining valid profiles
are returned in sorted-by-filename order. -/
theorem loadProfiles_refines_spec (d : Dir) :
    loadProfiles none = [] ∧ loadProfiles (some d) = listProfilesSpec d :=
  ⟨rfl, loadProfilesLoop_eq_filterMap d _⟩

/-- **C10** (confirmed).  Every profile returned by `loadProfiles` comes
from an eligible file of the directory and totalizes the missing fields:
a JSON payload lacking (or with an empty, i.e. falsy) `name` or `provider`
yields that field defaulted to the file's basename, and a payload lacking
`env` yields the empty mapping; `fileKey` is always the basename. -/
theorem loadProfiles_totalizes (d : Dir) (p : Profile)
    (hp : p ∈ loadProfiles (some d)) :
    ∃ fn data, (fn, FileContent.json data) ∈ d ∧ eligible fn = true
      ∧ p = profileOfData fn data
      ∧ p.fileKey = some (basename fn)
      ∧ ((data.name = none ∨ data.name = some "") → p.name = basename fn)
      ∧ ((data.provider = none ∨ data.provider = some "") →
          p.provider = basename fn)
      ∧ (data.env = none → p.env = []) := by
  rw [loadProfiles] at hp
  rcases mem_loadProfilesLoop_iff.1 hp with ⟨fn, _, heli, data, hlk, rfl⟩
  refine ⟨fn, data, lookup_mem hlk, heli, rfl, rfl, ?_, ?_, ?_⟩
  · rintro (h | h) <;> simp [profileOfData, jsOr, h]
  · rintro (h | h) <;> simp [profileOfData, jsOr, h]
  · intro h
    simp [profileOfData, h]

/-- Witness for `loadProfiles_totalizes`: a file whose payload has no
`name`, `provider` or `env` key loads as a profile whose every field is
defaulted from the basename. -/
theorem loadProfiles_totalizes_witness :
    ∃ fn data,
      (fn, FileContent.json data) ∈
          ([("x.json", FileContent.json ⟨none, none, none⟩)] : Dir)
      ∧ eligible fn = true
      ∧ (⟨"x", "x", [], some "x"⟩ : Profile) = profileOfData fn data
      ∧ (⟨"x", "x", [], some "x"⟩ : Profile).fileKey = some (basename fn)
      ∧ ((data.name = none ∨ data.name = some "") →
          (⟨"x", "x", [], some "x"⟩ : Profile).name = basename fn)
      ∧ ((data.provider = none ∨ data.provider = some "") →
          (⟨"x", "x", [], some "x"⟩ : Profile).provider = basename fn)
      ∧ (data.env = none → (⟨"x", "x", [], some "x"⟩ : Profile).env = []) :=
  loadProfiles_totalizes [("x.json", FileContent.json ⟨none, none, none⟩)]
    ⟨"x", "x", [], some "x"⟩ (by decide)

/-! ## C1: `getProfile` lookup policy -/

/-- The match criterion the claim states for `getProfile`: `provider` equals
the key exactly, or `name` equals it case-insensitively. -/
def matchesExact (key : String) (p : Profile) : Prop :=
  p.provider = key ∨ lowerStr p.name = lowerStr key

/-- The match criterion `LocalProfileStore.getProfile` (src/config.ts)
actually implements: both `name` and `provider` compared lower-cased. -/
def matchesCI (key : String) (p : Profile) : Prop :=
  lowerStr p.name = lowerStr key ∨ lowerStr p.provider = lowerStr key

instance (key : String) (p : Profile) : Decidable (matchesExact key p) := by
  unfold matchesExact
  infer_instance

instance (key : String) (p : Profile) : Decidable (matchesCI key p) := by
  unfold matchesCI
  infer_instance

theorem find?_eq_some_decomp {α : Type} {p : α → Bool} :
    ∀ {l : List α} {a : α}, l.find? p = some a →
      ∃ l₁ l₂, l = l₁ ++ a :: l₂ ∧ p a = true ∧ ∀ b ∈ l₁, p b = false
  | [], a, h => by simp at h
  | x :: l, a, h => by
    cases hp : p x with
    | true =>
      rw [List.find?_cons_of_pos _ hp] at h
      cases h
      exact ⟨[], l, rfl, hp, by simp⟩
    | false =>
      rw [List.find?_cons_of_neg _ (by simp [hp])] at h
      obtain ⟨l₁, l₂, rfl, ha, hall⟩ := find?_eq_some_decomp h
      refine ⟨x :: l₁, l₂, rfl, ha, ?_⟩
      intro b hb
      rcases List.mem_cons.1 hb with rfl | hb'
      · exact hp
      · exact hall b hb'

theorem find?_characterize {α : Type} (p : α → Bool) (P : α → Prop)
    (hPB : ∀ a, p a = true ↔ P a) (l : List α) :
    (l.find? p = none → ∀ a ∈ l, ¬ P a)
    ∧ (∀ a, l.find? p = some a →
        P a ∧ ∃ l₁ l₂, l = l₁ ++ a :: l₂ ∧ ∀ b ∈ l₁, ¬ P b) := by
  constructor
  · intro hn a ha hP
    have := List.find?_eq_none.1 hn a ha
    exact this ((hPB a).2 hP)
  · intro a hs
    obtain ⟨l₁, l₂, rfl, hpa, hall⟩ := find?_eq_some_decomp hs
    refine ⟨(hPB a).1 hpa, l₁, l₂, rfl, ?_⟩
    intro b hb hP
    have hfalse := hall b hb
    have htrue := (hPB b).2 hP
    rw [hfalse] at htrue
    exact Bool.false_ne_true htrue

/-- Concrete store for the C1 counterexample: one file `a.json` whose
record has `name: "x"`, `provider: "glm"`. -/
def cexDir : Dir := [("a.json", FileContent.json ⟨some "x", some "glm", some []⟩)]

/-- **C1** counterexample.  With the single stored profile
`{name: "x", provider: "glm"}` and lookup key `"GLM"`, no profile matches
the claim's criterion (exact on `provider`, case-insensitive on `name`),
so the claim demands a `none` result — yet
`LocalProfileStore.getProfile` (src/config.ts) returns the profile,
because it compares `provider` case-insensitively too. -/
theorem getProfile_provider_case_cex :
    (∀ p ∈ loadProfiles (some cexDir), ¬ matchesExact "GLM" p)
    ∧ LocalProfileStore_getProfile (some cexDir) "GLM" =
        some ⟨"x", "glm", [], some "a"⟩ := by
  constructor
  · decide
  · decide

/-- **C1** (corrected).  part_000's `getProfile` behaves exactly as the
claim says: it returns the first profile, in sorted-filename listing
order, whose `provider` equals the key exactly or whose `name` equals it
case-insensitively, and `none` when no profile matches.  src/config.ts's
`LocalProfileStore.getProfile`, however, is case-insensitive on `provider`
as well (criterion `matchesCI`): a key equal to a stored `provider` up to
case also matches there. -/
theorem getProfile_first_match (fsys : Option Dir) (key : String) :
    ((getProfile fsys key = none → ∀ p ∈ loadProfiles fsys, ¬ matchesExact key p)
      ∧ (∀ p, getProfile fsys key = some p →
          matchesExact key p ∧
          ∃ l₁ l₂, loadProfiles fsys = l₁ ++ p :: l₂ ∧
            ∀ q ∈ l₁, ¬ matchesExact key q))
    ∧ ((LocalProfileStore_getProfile fsys key = none →
          ∀ p ∈ loadProfiles fsys, ¬ matchesCI key p)
      ∧ (∀ p, LocalProfileStore_getProfile fsys key = some p →
          matchesCI key p ∧
          ∃ l₁ l₂, loadProfiles fsys = l₁ ++ p :: l₂ ∧
            ∀ q ∈ l₁, ¬ matchesCI key q)) := by
  constructor
  · exact find?_characterize _ (matchesExact key)
      (fun p => by simp [matchesExact, Bool.or_eq_true, beq_iff_eq])
      (loadProfiles fsys)
  · exact find?_characterize _ (matchesCI key)
      (fun p => by simp [matchesCI, Bool.or_eq_true, beq_iff_eq])
      (loadProfiles fsys)

/-- Witness for `getProfile_first_match`: on the concrete store `cexDir`,
the key `"glm"` (exact provider match) returns the stored profile first. -/
theorem getProfile_first_match_witness :
    matchesExact "glm" (⟨"x", "glm", [], some "a"⟩ : Profile) ∧
      ∃ l₁ l₂, loadProfiles (some cexDir) =
          l₁ ++ (⟨"x", "glm", [], some "a"⟩ : Profile) :: l₂ ∧
        ∀ q ∈ l₁, ¬ matchesExact "glm" q :=
  (getProfile_first_match (some cexDir) "glm").1.2
    ⟨"x", "glm", [], some "a"⟩ (by decide)

/-! ## C3/C4: saving -/

theorem lookup_assocSet {β : Type} (l : List (String × β)) (k fn' : String) (v : β) :
    List.lookup fn' (assocSet l k v) =
      if fn' = k then some v else List.lookup fn' l := by
  by_cases h : fn' = k
  · subst h
    rw [if_pos rfl]
    exact lookup_assocSet_self l fn' v
  · rw [if_neg h]
    exact lookup_assocSet_ne l k v fn' h

theorem strEndsWith_append_self (s t : String) :
    strEndsWith (s ++ t) t = true := by
  rw [strEndsWith]
  have : (s ++ t).data = s.data ++ t.data := String.data_append s t
  rw [this]
  rw [List.isSuffixOf_iff_suffix]
  exact List.suffix_append s.data t.data

/-- **C4** (corrected).  Overwrite-and-frame characterization of the three
`saveProfile` implementations: after a save, looking up any filename `fn'`
yields the saved record at the target filename and the old content
everywhere else (the same path therefore serves as create and update).
part_007's target is `(profile.fileKey || slugify(profile.name)) + '.json'`
(part_000 likewise, with `toProfileFileKey`, which trims first), exactly as
the claim says — but src/config.ts's `LocalProfileStore.saveProfile`
targets `` `${profile.provider}.json` `` instead, ignoring both `fileKey`
and the slug of `name`. -/
theorem saveProfile_writes (fsys : Option Dir) (p : Profile) (d : Dir) (fn' : String) :
    List.lookup fn' (saveProfile fsys p)
      = (if fn' = jsOr p.fileKey (slugify p.name) ++ ".json"
          then some (serializeProfile p) else List.lookup fn' (fsys.getD []))
    ∧ List.lookup fn' (saveProfile_000 d p)
      = (if fn' = jsOr p.fileKey (toProfileFileKey p.name) ++ ".json"
          then some (serializeProfile p) else List.lookup fn' d)
    ∧ List.lookup fn' (LocalProfileStore_saveProfile d p)
      = (if fn' = p.provider ++ ".json"
          then some (serializeProfile p) else List.lookup fn' d) :=
  ⟨lookup_assocSet _ _ _ _, lookup_assocSet _ _ _ _, lookup_assocSet _ _ _ _⟩

/-- **C4** counterexample.  `LocalProfileStore.saveProfile` does not write
to `<fileKey || slugify(name)>.json`: saving `{name: "My GLM", provider:
"glm"}` (fileKey unset) into an empty directory leaves `my-glm.json` — the
filename the claim requires — absent, and writes `glm.json` instead. -/
theorem LocalProfileStore_saveProfile_cex :
    slugify "My GLM" = "my-glm"
    ∧ List.lookup "my-glm.json"
        (LocalProfileStore_saveProfile [] ⟨"My GLM", "glm", [], none⟩) = none
    ∧ List.lookup "glm.json"
        (LocalProfileStore_saveProfile [] ⟨"My GLM", "glm", [], none⟩)
        = some (serializeProfile ⟨"My GLM", "glm", [], none⟩) := by
  refine ⟨by decide, by decide, by decide⟩

/-- **C3** (corrected).  Round-trip through part_007's
`saveProfile`/`loadProfiles`: provided the profile's `name` and `provider`
are nonempty (JS-truthy) and the effective filename does not carry the
reserved `.example.json` suffix, the loaded list contains a record with
the saved `name`, `provider` and `env`. -/
theorem saveProfile_roundtrip (fsys : Option Dir) (p : Profile)
    (hname : p.name ≠ "") (hprov : p.provider ≠ "")
    (hkey : strEndsWith (jsOr p.fileKey (slugify p.name) ++ ".json")
        ".example.json" = false) :
    ∃ q ∈ loadProfiles (some (saveProfile fsys p)),
      q.name = p.name ∧ q.provider = p.provider ∧ q.env = p.env := by
  have hlk : List.lookup (jsOr p.fileKey (slugify p.name) ++ ".json")
      (saveProfile fsys p) = some (serializeProfile p) :=
    lookup_assocSet_self _ _ _
  have hkeymem : (jsOr p.fileKey (slugify p.name) ++ ".json")
      ∈ (saveProfile fsys p).map Prod.fst :=
    mem_keys_assocSet _ _ _
  have heli : eligible (jsOr p.fileKey (slugify p.name) ++ ".json") = true := by
    rw [eligible, strEndsWith_append_self, hkey]
    rfl
  refine ⟨profileOfData (jsOr p.fileKey (slugify p.name) ++ ".json")
      ⟨some p.name, some p.provider, some p.env⟩, ?_, ?_, ?_, ?_⟩
  · rw [loadProfiles]
    exact mem_loadProfilesLoop_iff.2
      ⟨_, mem_sortNames.2 hkeymem, heli, _, hlk, rfl⟩
  · simp [profileOfData, jsOr, hname]
  · simp [profileOfData, jsOr, hprov]
  · simp [profileOfData]

/-- Witness for `saveProfile_roundtrip` at a concrete profile. -/
theorem saveProfile_roundtrip_witness :
    ∃ q ∈ loadProfiles (some (saveProfile none
        ⟨"My GLM", "glm", [("ANTHROPIC_AUTH_TOKEN", "t")], none⟩)),
      q.name = "My GLM" ∧ q.provider = "glm"
        ∧ q.env = [("ANTHROPIC_AUTH_TOKEN", "t")] :=
  saveProfile_roundtrip none ⟨"My GLM", "glm", [("ANTHROPIC_AUTH_TOKEN", "t")], none⟩
    (by decide) (by decide) (by decide)

/-- **C3** counterexample.  Saving a profile whose `name` is the empty
string (JS-falsy) and loading back yields no record equal to it in `name`,
`provider` and `env`: the loader defaults the empty name to the file's
basename `"profile"`. -/
theorem saveProfile_roundtrip_cex :
    ¬ ∃ q ∈ loadProfiles (some (saveProfile none ⟨"", "p", [], none⟩)),
      q.name = "" ∧ q.provider = "p" ∧ q.env = ([] : List (String × String)) := by
  decide

/-! ## C6: `removeProviderProfiles` -/

theorem lookup_of_mem_nodup :
    ∀ {d : Dir} {k : String} {v : FileContent}, (k, v) ∈ d →
      (d.map Prod.fst).Nodup → List.lookup k d = some v
  | [], _, _, h, _ => by simp at h
  | (a, b) :: rest, k, v, h, hd => by
    rcases List.mem_cons.1 h with heq | hmem
    · cases heq
      simp [List.lookup]
    · have hk : k ≠ a := by
        intro hk
        subst hk
        have : k ∈ rest.map Prod.fst := List.mem_map_of_mem _ hmem
        exact (List.nodup_cons.1 hd).1 this
      have hb : (k == a) = false := beq_eq_false_iff_ne.2 hk
      rw [List.lookup, hb]
      exact lookup_of_mem_nodup hmem (List.nodup_cons.1 hd).2

theorem lookup_eq_none_iff :
    ∀ {d : Dir} {k : String},
      List.lookup k d = none ↔ ∀ e ∈ d, e.1 ≠ k
  | [], k => by simp [List.lookup]
  | (a, b) :: rest, k => by
    rw [List.lookup]
    cases hb : (k == a) with
    | true =>
      have : k = a := by simpa using hb
      subst this
      simp
    | false =>
      have hk : k ≠ a := by simpa using hb
      rw [lookup_eq_none_iff (d := rest)]
      constructor
      · intro h e he
        rcases List.mem_cons.1 he with rfl | he'
        · exact fun hc => hk hc.symm
        · exact h e he'
      · intro h e he
        exact h e (List.mem_cons_of_mem _ he)

theorem eraseFile_eq_filter :
    ∀ {d : Dir} (fn : String), (d.map Prod.fst).Nodup →
      eraseFile d fn = d.filter (fun e => !(e.1 == fn))
  | [], fn, _ => rfl
  | (a, b) :: rest, fn, hd => by
    by_cases ha : a = fn
    · subst ha
      rw [eraseFile, List.eraseP_cons, List.filter_cons]
      simp only [beq_self_eq_true, Bool.not_true, cond_true]
      have : ∀ e ∈ rest, (!(e.1 == a)) = true := by
        intro e he
        have : e.1 ≠ a := by
          intro hc
          apply (List.nodup_cons.1 hd).1
          rw [← hc]
          exact List.mem_map.2 ⟨e, he, rfl⟩
        simpa using this
      rw [if_neg (by simp)]
      exact (List.filter_eq_self.2 this).symm
    · rw [eraseFile, List.eraseP_cons, List.filter_cons]
      have hb : (a == fn) = false := beq_eq_false_iff_ne.2 ha
      simp only [hb, Bool.not_false, cond_false]
      rw [if_pos (by simp [hb])]
      exact congrArg (List.cons (a, b))
        (eraseFile_eq_filter fn (List.nodup_cons.1 hd).2)

theorem eraseFile_keys_nodup {d : Dir} (fn : String)
    (hd : (d.map Prod.fst).Nodup) : ((eraseFile d fn).map Prod.fst).Nodup :=
  hd.sublist (List.Sublist.map Prod.fst (List.eraseP_sublist d))

theorem removeLoop_eq_filter (pid : String) :
    ∀ (names : List String) (d : Dir), names.Nodup → (d.map Prod.fst).Nodup →
      removeLoop pid names d =
        d.filter (fun e =>
          !(decide (e.1 ∈ names) && eligible e.1 && providerFieldIs pid e.2))
  | [], d, _, _ => by
    simp [removeLoop]
  | fn :: rest, d, hn, hd => by
    have hfn : fn ∉ rest := (List.nodup_cons.1 hn).1
    have hrest : rest.Nodup := (List.nodup_cons.1 hn).2
    by_cases heli : eligible fn = true
    · cases hlk : List.lookup fn d with
      | none =>
        rw [removeLoop, if_pos heli, hlk]
        rw [removeLoop_eq_filter pid rest d hrest hd]
        apply List.filter_congr
        intro e he
        have hne : e.1 ≠ fn := lookup_eq_none_iff.1 hlk e he
        simp [List.mem_cons, hne]
      | some c =>
        cases c with
        | invalid =>
          rw [removeLoop, if_pos heli, hlk]
          rw [removeLoop_eq_filter pid rest d hrest hd]
          apply List.filter_congr
          intro e he
          by_cases hef : e.1 = fn
          · have hlkm : List.lookup e.1 d = some e.2 := lookup_of_mem_nodup he hd
            rw [hef, hlk] at hlkm
            have he2 : e.2 = FileContent.invalid := (Option.some.inj hlkm).symm
            simp [List.mem_cons, hef, he2, providerFieldIs, hfn]
          · simp [List.mem_cons, hef]
        | json data =>
          by_cases hmatch : (data.provider == some pid) = true
          · rw [removeLoop, if_pos heli, hlk]
            show (if (data.provider == some pid) = true
                then removeLoop pid rest (eraseFile d fn)
                else removeLoop pid rest d) =
              List.filter (fun e =>
                !(decide (e.1 ∈ fn :: rest) && eligible e.1
                    && providerFieldIs pid e.2)) d
            rw [if_pos hmatch]
            rw [removeLoop_eq_filter pid rest (eraseFile d fn) hrest
              (eraseFile_keys_nodup fn hd)]
            rw [eraseFile_eq_filter fn hd, List.filter_filter]
            apply List.filter_congr
            intro e he
            by_cases hef : e.1 = fn
            · have hlkm : List.lookup e.1 d = some e.2 := lookup_of_mem_nodup he hd
              rw [hef, hlk] at hlkm
              have he2 : e.2 = FileContent.json data := (Option.some.inj hlkm).symm
              simp [List.mem_cons, hef, he2, providerFieldIs, heli, hmatch]
            · simp [List.mem_cons, hef]
          · rw [removeLoop, if_pos heli, hlk]
            show (if (data.provider == some pid) = true
                then removeLoop pid rest (eraseFile d fn)
                else removeLoop pid rest d) =
              List.filter (fun e =>
                !(decide (e.1 ∈ fn :: rest) && eligible e.1
                    && providerFieldIs pid e.2)) d
            rw [if_neg hmatch]
            rw [removeLoop_eq_filter pid rest d hrest hd]
            apply List.filter_congr
            intro e he
            by_cases hef : e.1 = fn
            · have hlkm : List.lookup e.1 d = some e.2 := lookup_of_mem_nodup he hd
              rw [hef, hlk] at hlkm
              have he2 : e.2 = FileContent.json data := (Option.some.inj hlkm).symm
              have hm : (data.provider == some pid) = false := by
                simpa using hmatch
              simp [List.mem_cons, hef, he2, providerFieldIs, hfn, hm]
            · simp [List.mem_cons, hef]
    · rw [removeLoop, if_neg heli]
      rw [removeLoop_eq_filter pid rest d hrest hd]
      apply List.filter_congr
      intro e he
      by_cases hef : e.1 = fn
      · have he' : eligible fn = false := by simpa using heli
        simp [List.mem_cons, hef, he', hfn]
      · simp [List.mem_cons, hef]

/-- **C6** (confirmed).  `removeProviderProfiles(providerId)` deletes
exactly the profile files — the `.json`, non-`.example.json` files that
parse — whose stored `provider` field strictly equals the given id, and
leaves every other file of the directory unchanged (including example
files, unparseable files, and files whose `provider` field is absent or
different); when nothing matches it is a no-op, and a missing directory is
also a no-op rather than an error. -/
theorem removeProviderProfiles_exact (d : Dir) (pid : String)
    (hd : (d.map Prod.fst).Nodup) :
    removeProviderProfiles (some d) pid =
      some (d.filter (fun e => !(eligible e.1 && providerFieldIs pid e.2)))
    ∧ removeProviderProfiles none pid = none
    ∧ ((∀ e ∈ d, ¬(eligible e.1 = true ∧ providerFieldIs pid e.2 = true)) →
        removeProviderProfiles (some d) pid = some d) := by
  have hmain : removeProviderProfiles (some d) pid =
      some (d.filter (fun e => !(eligible e.1 && providerFieldIs pid e.2))) := by
    rw [removeProviderProfiles]
    rw [removeLoop_eq_filter pid (d.map Prod.fst) d hd hd]
    refine congrArg some (List.filter_congr ?_)
    intro e he
    have : e.1 ∈ d.map Prod.fst := List.mem_map.2 ⟨e, he, rfl⟩
    simp [this]
  refine ⟨hmain, rfl, ?_⟩
  intro hnone
  rw [hmain]
  refine congrArg some (List.filter_eq_self.2 ?_)
  intro e he
  have := hnone e he
  rcases heli : eligible e.1 <;> rcases hpf : providerFieldIs pid e.2 <;>
    simp [heli, hpf] at this ⊢

/-- Concrete directory for the `removeProviderProfiles` witness: one
matching profile file, one other provider, one example file with a
matching provider, one unparseable file. -/
def rmDir : Dir :=
  [("a.json", FileContent.json ⟨some "A", some "glm", some []⟩),
   ("b.json", FileContent.json ⟨some "B", some "minimax", some []⟩),
   ("c.example.json", FileContent.json ⟨none, some "glm", none⟩),
   ("bad.json", FileContent.invalid)]

/-- Witness for `removeProviderProfiles_exact`: only `a.json` (the
parseable, non-example file with `provider == "glm"`) is deleted. -/
theorem removeProviderProfiles_exact_witness :
    (removeProviderProfiles (some rmDir) "glm" =
        some (rmDir.filter (fun e => !(eligible e.1 && providerFieldIs "glm" e.2)))
      ∧ removeProviderProfiles none "glm" = none
      ∧ ((∀ e ∈ rmDir, ¬(eligible e.1 = true ∧ providerFieldIs "glm" e.2 = true)) →
          removeProviderProfiles (some rmDir) "glm" = some rmDir))
    ∧ removeProviderProfiles (some rmDir) "glm" =
        some [("b.json", FileContent.json ⟨some "B", some "minimax", some []⟩),
              ("c.example.json", FileContent.json ⟨none, some "glm", none⟩),
              ("bad.json", FileContent.invalid)] :=
  ⟨removeProviderProfiles_exact rmDir "glm" (by decide), by decide⟩

/-! ## C7: `deleteProfile` -/

/-- **C7** (corrected).  `LocalProfileStore.deleteProfile` resolves the key
via `getProfile`; with no match it returns `false` and deletes nothing.
With a match `p` it returns `true` and removes the directory entry named
`` `${p.provider}.json` `` when it exists — which is `p`'s own file only
when files are named after their stored provider — and removes nothing
otherwise, still returning `true`: the boolean reports that a profile
matched, not that a deletion occurred. -/
theorem deleteProfile_semantics (d : Dir) (key : String)
    (hd : (d.map Prod.fst).Nodup) :
    (LocalProfileStore_getProfile (some d) key = none →
      LocalProfileStore_deleteProfile (some d) key = (false, some d))
    ∧ (∀ p, LocalProfileStore_getProfile (some d) key = some p →
        LocalProfileStore_deleteProfile (some d) key =
          (true, some (d.filter (fun e => !(e.1 == p.provider ++ ".json"))))) := by
  constructor
  · intro h
    rw [LocalProfileStore_deleteProfile, h]
  · intro p hp
    rw [LocalProfileStore_deleteProfile, hp]
    show (if (List.lookup (p.provider ++ ".json") d).isSome
        then (true, some (eraseFile d (p.provider ++ ".json")))
        else (true, some d)) =
      (true, some (d.filter (fun e => !(e.1 == p.provider ++ ".json"))))
    by_cases hex : (List.lookup (p.provider ++ ".json") d).isSome = true
    · rw [if_pos hex, eraseFile_eq_filter _ hd]
    · rw [if_neg hex]
      have hnone : List.lookup (p.provider ++ ".json") d = none :=
        Option.not_isSome_iff_eq_none.1 (by simpa using hex)
      have hall : ∀ e ∈ d, (!(e.1 == p.provider ++ ".json")) = true := by
        intro e he
        have := lookup_eq_none_iff.1 hnone e he
        simpa using this
      rw [List.filter_eq_self.2 hall]

/-- Store for the C7 counterexample: the only profile file is `foo.json`,
whose record declares `provider: "bar"`. -/
def delDir : Dir := [("foo.json", FileContent.json ⟨some "foo", some "bar", some []⟩)]

/-- **C7** counterexample.  `deleteProfile("foo")` resolves the profile
(name match) but then targets `bar.json` — the file named after the
stored provider — which does not exist: it returns `true` although no
deletion occurred, and the matched profile's own file `foo.json` is left
in place, contradicting the claim that the boolean reports whether a
deletion occurred and that the matched profile's file is deleted. -/
theorem deleteProfile_cex :
    LocalProfileStore_getProfile (some delDir) "foo" =
      some ⟨"foo", "bar", [], some "foo"⟩
    ∧ LocalProfileStore_deleteProfile (some delDir) "foo" = (true, some delDir) :=
  ⟨by decide, by decide⟩

/-- Store for the `deleteProfile_semantics` witness. -/
def delDirW : Dir := [("glm.json", FileContent.json ⟨some "G", some "glm", some []⟩)]

/-- Witness for `deleteProfile_semantics`: deleting by provider id on a
store whose file is named after its provider removes exactly that file. -/
theorem deleteProfile_semantics_witness :
    LocalProfileStore_deleteProfile (some delDirW) "glm" =
      (true, some (delDirW.filter (fun e => !(e.1 == "glm" ++ ".json")))) :=
  (deleteProfile_semantics delDirW "glm" (by decide)).2
    ⟨"G", "glm", [], some "glm"⟩ (by decide)

/-! ## C8/C9: the configure and editor flows

`configureProvider` (part_000) is an interactive wizard; it is modelled as
a pure function of the prompt inputs.  `ConfigInputs` is the script of
user inputs: the successive answers to the profile-name prompt (the Step 0
loop re-prompts until a name passes validation; an exhausted script is the
run that never leaves that loop, outcome `stuck`), the base-URL answer,
the auth-method menu choice (both the OAuth and the API-key branch just
prompt for a token, so the choice does not affect the result), the token,
the model and the timeout answers. -/

structure Provider where
  id : String
  name : String
  baseUrl : String
  defaultModel : String
  authUrl : Option String
  authInstructions : Option String
deriving DecidableEq

/-- The `claude` entry of `KNOWN_PROVIDERS` (part_000 and src/cli.ts). -/
def claudeProvider : Provider :=
  { id := "claude", name := "Anthropic Claude",
    baseUrl := "https://api.anthropic.com",
    defaultModel := "claude-sonnet-4-20250514",
    authUrl := some "https://console.anthropic.com/settings/keys",
    authInstructions := some "Get your API key from the Anthropic Console" }

inductive Mode
  | add
  | edit
deriving DecidableEq

structure ConfigInputs where
  nameInputs : List String
  urlInput : String
  oauthChosen : Bool
  tokenInput : String
  modelInput : String
  timeoutInput : String
deriving DecidableEq

inductive ConfigOutcome
  | saved (p : Profile)
  | cancelled
  | stuck
deriving DecidableEq

structure ConfigResult where
  fsys : Option Dir
  outcome : ConfigOutcome
deriving DecidableEq

/-- The Step 0 name loop of part_000's `configureProvider`.  A blank
answer defaults to the provider's display name; the four rejection
conditions of the source all `continue` the loop, so they are combined in
one disjunction; on acceptance the file key is the matched existing
profile's key when that profile belongs to this provider, else the slug of
the desired name. -/
def resolveProfileName (fsys : Option Dir) (provider : Provider) (mode : Mode) :
    List String → Option (String × Option String)
  | [] => none
  | input :: rest =>
    let desiredName := jsOrStr (jsTrim input) provider.name
    let existingByName := getProfileByName fsys desiredName
    let desiredFileKey := toProfileFileKey desiredName
    let existingByFileKey := getProfileByFileKey fsys desiredFileKey
    if (decide (mode = Mode.add) && existingByName.isSome)
        || (decide (mode = Mode.edit) && (match existingByName with
            | some q => q.provider != provider.id
            | none => false))
        || (decide (mode = Mode.add) && existingByFileKey.isSome)
        || (decide (mode = Mode.edit) && existingByFileKey.isSome &&
            (match existingByName with
            | some q => q.provider != provider.id
            | none => true)) then
      resolveProfileName fsys provider mode rest
    else
      some (desiredName,
        match existingByName with
        | some q =>
          if q.provider == provider.id then q.fileKey else some desiredFileKey
        | none => some desiredFileKey)

/-- part_000's `configureProvider`: name loop, base URL (blank keeps the
provider default), auth-method menu, token prompt — an empty (trimmed)
token cancels the whole flow without saving — then model and timeout
(blank keeps `defaultModel` / `"3000000"`), then the env merge and
`saveProfile`. -/
def configureProvider (fsys : Option Dir) (provider : Provider) (mode : Mode)
    (inp : ConfigInputs) : ConfigResult :=
  match resolveProfileName fsys provider mode inp.nameInputs with
  | none => ⟨fsys, ConfigOutcome.stuck⟩
  | some (profileName, profileFileKey) =>
    let baseUrl := jsOrStr (jsTrim inp.urlInput) provider.baseUrl
    if jsTrim inp.tokenInput = "" then ⟨fsys, ConfigOutcome.cancelled⟩
    else
      let model := jsOrStr (jsTrim inp.modelInput) provider.defaultModel
      let timeout := jsOrStr (jsTrim inp.timeoutInput) "3000000"
      let base : Profile :=
        match getProfileByName fsys profileName with
        | some q => q
        | none =>
          { name := profileName, provider := provider.id, env := [],
            fileKey := profileFileKey }
      let p : Profile :=
        { name := profileName, provider := provider.id,
          fileKey := profileFileKey,
          env := assocSet (assocSet (assocSet (assocSet (assocSet base.env
            "ANTHROPIC_AUTH_TOKEN" (jsTrim inp.tokenInput))
            "ANTHROPIC_BASE_URL" baseUrl)
            "ANTHROPIC_MODEL" model)
            "API_TIMEOUT_MS" timeout)
            "CLAUDE_CODE_DISABLE_NONESSENTIAL_TRAFFIC" "1" }
      ⟨some (saveProfile_000 (fsys.getD []) p), ConfigOutcome.saved p⟩

/-- Input script for src/cli.ts's simpler `configureProvider` (no name
step; the auth-method answer is a typed string, `"2"` selecting OAuth, and
either branch just prompts for a token). -/
structure CliConfigInputs where
  urlInput : String
  authMethodInput : String
  tokenInput : String
  modelInput : String
  timeoutInput : String
deriving DecidableEq

/-- src/cli.ts's `configureProvider`: base URL, auth method, token (empty
trimmed token cancels), model, timeout; the base profile is
`getProfile(provider.id) || {name, provider, env:{}}` and only its `env`
is updated before `saveProfile`. -/
def cliConfigureProvider (fsys : Option Dir) (provider : Provider)
    (inp : CliConfigInputs) : ConfigResult :=
  let baseUrl := jsOrStr (jsTrim inp.urlInput) provider.baseUrl
  if jsTrim inp.tokenInput = "" then ⟨fsys, ConfigOutcome.cancelled⟩
  else
    let model := jsOrStr (jsTrim inp.modelInput) provider.defaultModel
    let timeout := jsOrStr (jsTrim inp.timeoutInput) "3000000"
    let base : Profile :=
      match getProfile fsys provider.id with
      | some q => q
      | none =>
        { name := provider.name, provider := provider.id, env := [],
          fileKey := none }
    let p : Profile :=
      { base with
        env := assocSet (assocSet (assocSet (assocSet (assocSet base.env
          "ANTHROPIC_AUTH_TOKEN" (jsTrim inp.tokenInput))
          "ANTHROPIC_BASE_URL" baseUrl)
          "ANTHROPIC_MODEL" model)
          "API_TIMEOUT_MS" timeout)
          "CLAUDE_CODE_DISABLE_NONESSENTIAL_TRAFFIC" "1" }
    ⟨some (cliSaveProfile (fsys.getD []) p), ConfigOutcome.saved p⟩

/-! ### `ProfileEditorView` (part_004), modelled as a step function on the
form state, one keypress event at a time.  The second component of a step
is the outcome delivered to the caller: `cancel` for `onCancel`,
`complete d` for `onComplete d`; `none` means the editor stays open (the
caller in part_003 saves a file only on `complete`). -/

structure EditorValues where
  profileName : String
  baseUrl : String
  model : String
  token : String
deriving DecidableEq

structure EditorState where
  activeIndex : Nat
  error : Option String
  values : EditorValues
deriving DecidableEq

inductive EditorEvent
  | escape
  | enter
  | tab
  | down
  | up
  | backspace
  | char (c : Char)
deriving DecidableEq

structure OnboardingData where
  profileName : String
  baseUrl : String
  model : String
  token : String
deriving DecidableEq

inductive EditorOutcome
  | cancel
  | complete (d : OnboardingData)
deriving DecidableEq

/-- The `existingName` / `existingBaseUrl` / `existingModel` fallbacks the
view computes from the profile being edited. -/
structure EditorCtx where
  existingName : String
  existingBaseUrl : String
  existingModel : String
deriving DecidableEq

def editorCtxOf (p : Profile) : EditorCtx :=
  { existingName := jsOrStr p.name (jsOr (List.lookup "PROVIDER_NAME" p.env) p.provider)
    existingBaseUrl := jsOr (List.lookup "ANTHROPIC_BASE_URL" p.env) ""
    existingModel := jsOr (List.lookup "ANTHROPIC_MODEL" p.env) "model" }

/-- The view's initial `values` state. -/
def initialEditorState (p : Profile) : EditorState :=
  { activeIndex := 0, error := none,
    values :=
      { profileName := (editorCtxOf p).existingName
        baseUrl := (editorCtxOf p).existingBaseUrl
        model := (editorCtxOf p).existingModel
        token := jsOr (List.lookup "ANTHROPIC_AUTH_TOKEN" p.env) "" } }

/-- Apply an edit to the field at `fields[i]`
(`profileName`/`baseUrl`/`model`/`token`); `activeIndex` stays in `0..3`
by construction, the catch-all is unreachable. -/
def setField (v : EditorValues) (i : Nat) (f : String → String) : EditorValues :=
  match i with
  | 0 => { v with profileName := f v.profileName }
  | 1 => { v with baseUrl := f v.baseUrl }
  | 2 => { v with model := f v.model }
  | 3 => { v with token := f v.token }
  | _ => v

/-- JS `s.slice(0, -1)`. -/
def dropLastChar (s : String) : String :=
  ⟨s.data.dropLast⟩

/-- The `useInput` handler of `ProfileEditorView`: escape cancels; enter
with a blank (trimmed) token sets the inline error `"Token is required"`
and stays; enter otherwise completes with trimmed values falling back to
the existing ones; tab/↓ and ↑ move the focus with wraparound
(`(i - 1 + 4) % 4` is written `(i + 3) % 4`); backspace edits the focused
field; a printable character appends to it and clears the error. -/
def editorStep (ctx : EditorCtx) (s : EditorState) (e : EditorEvent) :
    EditorState × Option EditorOutcome :=
  match e with
  | EditorEvent.escape => (s, some EditorOutcome.cancel)
  | EditorEvent.enter =>
    if jsTrim s.values.token = "" then
      ({ s with error := some "Token is required" }, none)
    else
      (s, some (EditorOutcome.complete
        { profileName := jsOrStr (jsTrim s.values.profileName) ctx.existingName
          baseUrl := jsOrStr (jsTrim s.values.baseUrl) ctx.existingBaseUrl
          model := jsOrStr (jsTrim s.values.model) ctx.existingModel
          token := jsTrim s.values.token }))
  | EditorEvent.tab => ({ s with activeIndex := (s.activeIndex + 1) % 4 }, none)
  | EditorEvent.down => ({ s with activeIndex := (s.activeIndex + 1) % 4 }, none)
  | EditorEvent.up => ({ s with activeIndex := (s.activeIndex + 3) % 4 }, none)
  | EditorEvent.backspace =>
    ({ s with values := setField s.values s.activeIndex dropLastChar }, none)
  | EditorEvent.char c =>
    let s' := { s with values := setField s.values s.activeIndex (fun v => v.push c) }
    ({ s' with error := none }, none)

theorem jsTrim_nil : jsTrim "" = "" := rfl

theorem jsOrStr_nil (b : String) : jsOrStr "" b = b := rfl

/-- **C8** counterexample.  In part_004's `ProfileEditorView`, submitting
the form (Enter) with an empty token does *not* abort the flow as a user
cancellation: the step yields no outcome at all (neither `cancel` nor
`complete`, so control does not return to the configure view), leaving the
editor open with the inline error `"Token is required"` and the field
values unchanged. -/
theorem editor_empty_token_cex :
    (editorStep (editorCtxOf ⟨"glm", "glm", [], none⟩)
        (initialEditorState ⟨"glm", "glm", [], none⟩) EditorEvent.enter).2 = none
    ∧ (editorStep (editorCtxOf ⟨"glm", "glm", [], none⟩)
        (initialEditorState ⟨"glm", "glm", [], none⟩) EditorEvent.enter).1.error
        = some "Token is required"
    ∧ (editorStep (editorCtxOf ⟨"glm", "glm", [], none⟩)
        (initialEditorState ⟨"glm", "glm", [], none⟩) EditorEvent.enter).1.values
        = (initialEditorState ⟨"glm", "glm", [], none⟩).values :=
  ⟨by decide, by decide, by decide⟩

/-- **C8** (corrected).  In part_000's `configureProvider`, once the name
step has been passed, an empty (trimmed) token submission cancels the
whole flow: the store is returned unchanged and the outcome is
`cancelled` (control returns to the configure view), with no write.  In
part_004's `ProfileEditorView`, by contrast, Enter on an empty token does
not abort: it sets the inline error and keeps the editor open (no outcome,
hence no write either); only Escape returns to the previous view. -/
theorem empty_token_aborts (fsys : Option Dir) (provider : Provider)
    (mode : Mode) (inp : ConfigInputs) (ctx : EditorCtx) (s : EditorState)
    (hres : (resolveProfileName fsys provider mode inp.nameInputs).isSome = true)
    (htok : jsTrim inp.tokenInput = "")
    (hstok : jsTrim s.values.token = "") :
    configureProvider fsys provider mode inp = ⟨fsys, ConfigOutcome.cancelled⟩
    ∧ editorStep ctx s EditorEvent.enter =
        ({ s with error := some "Token is required" }, none)
    ∧ editorStep ctx s EditorEvent.escape = (s, some EditorOutcome.cancel) := by
  refine ⟨?_, ?_, rfl⟩
  · obtain ⟨⟨n, k⟩, hpair⟩ := Option.isSome_iff_exists.1 hres
    simp [configureProvider, hpair, htok]
  · simp [editorStep, hstok]

/-- Witness for `empty_token_aborts` at concrete inputs. -/
theorem empty_token_aborts_witness :
    configureProvider none claudeProvider Mode.add ⟨[""], "", false, "", "", ""⟩ =
      ⟨none, ConfigOutcome.cancelled⟩
    ∧ editorStep ⟨"n", "u", "m"⟩ ⟨0, none, ⟨"n", "u", "m", ""⟩⟩ EditorEvent.enter =
        (⟨0, some "Token is required", ⟨"n", "u", "m", ""⟩⟩, none)
    ∧ editorStep ⟨"n", "u", "m"⟩ ⟨0, none, ⟨"n", "u", "m", ""⟩⟩ EditorEvent.escape =
        (⟨0, none, ⟨"n", "u", "m", ""⟩⟩, some EditorOutcome.cancel) :=
  empty_token_aborts none claudeProvider Mode.add ⟨[""], "", false, "", "", ""⟩
    ⟨"n", "u", "m"⟩ ⟨0, none, ⟨"n", "u", "m", ""⟩⟩ (by decide) (by decide) (by decide)

/-- **C9** counterexample.  Running part_000's editor flow against the
`claude` provider with only the token `" tok "` supplied (every other
prompt left blank) saves a profile whose env holds the *trimmed* token
`"tok"`, not the entered token verbatim. -/
theorem configure_token_trim_cex :
    (configureProvider none claudeProvider Mode.add
        ⟨[""], "", false, " tok ", "", ""⟩).outcome
      = ConfigOutcome.saved ⟨"Anthropic Claude", "claude",
          [("ANTHROPIC_AUTH_TOKEN", "tok"),
           ("ANTHROPIC_BASE_URL", "https://api.anthropic.com"),
           ("ANTHROPIC_MODEL", "claude-sonnet-4-20250514"),
           ("API_TIMEOUT_MS", "3000000"),
           ("CLAUDE_CODE_DISABLE_NONESSENTIAL_TRAFFIC", "1")],
          some "anthropic-claude"⟩
    ∧ ("tok" : String) ≠ " tok " :=
  ⟨by decide, by decide⟩

/-- **C9** (corrected).  For every run of part_000's `configureProvider`
or src/cli.ts's `configureProvider` against the `claude` catalog entry in
which the user leaves base URL, model and timeout blank (accepting the
defaults) and enters a non-blank token, any saved profile's env maps
`ANTHROPIC_BASE_URL` to `"https://api.anthropic.com"`, `ANTHROPIC_MODEL`
to `"claude-sonnet-4-20250514"`, `API_TIMEOUT_MS` to `"3000000"`,
`CLAUDE_CODE_DISABLE_NONESSENTIAL_TRAFFIC` (the fixed flag disabling
nonessential background traffic) to `"1"`, and `ANTHROPIC_AUTH_TOKEN` to
the entered token *after whitespace trimming* (verbatim exactly when the
token has no surrounding whitespace). -/
theorem configure_claude_defaults (fsys : Option Dir) (mode : Mode)
    (inp : ConfigInputs) (cinp : CliConfigInputs)
    (hurl : inp.urlInput = "") (hmodel : inp.modelInput = "")
    (htimeout : inp.timeoutInput = "")
    (hcurl : cinp.urlInput = "") (hcmodel : cinp.modelInput = "")
    (hctimeout : cinp.timeoutInput = "") :
    (∀ p, (configureProvider fsys claudeProvider mode inp).outcome
        = ConfigOutcome.saved p →
      List.lookup "ANTHROPIC_BASE_URL" p.env = some "https://api.anthropic.com"
      ∧ List.lookup "ANTHROPIC_MODEL" p.env = some "claude-sonnet-4-20250514"
      ∧ List.lookup "API_TIMEOUT_MS" p.env = some "3000000"
      ∧ List.lookup "CLAUDE_CODE_DISABLE_NONESSENTIAL_TRAFFIC" p.env = some "1"
      ∧ List.lookup "ANTHROPIC_AUTH_TOKEN" p.env = some (jsTrim inp.tokenInput))
    ∧ (∀ p, (cliConfigureProvider fsys claudeProvider cinp).outcome
        = ConfigOutcome.saved p →
      List.lookup "ANTHROPIC_BASE_URL" p.env = some "https://api.anthropic.com"
      ∧ List.lookup "ANTHROPIC_MODEL" p.env = some "claude-sonnet-4-20250514"
      ∧ List.lookup "API_TIMEOUT_MS" p.env = some "3000000"
      ∧ List.lookup "CLAUDE_CODE_DISABLE_NONESSENTIAL_TRAFFIC" p.env = some "1"
      ∧ List.lookup "ANTHROPIC_AUTH_TOKEN" p.env = some (jsTrim cinp.tokenInput)) := by
  constructor
  · intro p hp
    cases hres : resolveProfileName fsys claudeProvider mode inp.nameInputs with
    | none => simp [configureProvider, hres] at hp
    | some pair =>
      obtain ⟨n, k⟩ := pair
      by_cases htok : jsTrim inp.tokenInput = ""
      · simp [configureProvider, hres, htok] at hp
      · simp [configureProvider, hres, htok] at hp
        subst hp
        refine ⟨?_, ?_, ?_, ?_, ?_⟩ <;>
          simp [lookup_assocSet, hurl, hmodel, htimeout, jsTrim_nil,
            jsOrStr_nil, claudeProvider]
  · intro p hp
    by_cases htok : jsTrim cinp.tokenInput = ""
    · simp [cliConfigureProvider, htok] at hp
    · simp [cliConfigureProvider, htok] at hp
      subst hp
      refine ⟨?_, ?_, ?_, ?_, ?_⟩ <;>
        simp [lookup_assocSet, hcurl, hcmodel, hctimeout, jsTrim_nil,
          jsOrStr_nil, claudeProvider]

/-- Witness for `configure_claude_defaults`: the all-defaults run with
token `"t"` on an empty store. -/
theorem configure_claude_defaults_witness :
    List.lookup "ANTHROPIC_BASE_URL"
        (⟨"Anthropic Claude", "claude",
          [("ANTHROPIC_AUTH_TOKEN", "t"),
           ("ANTHROPIC_BASE_URL", "https://api.anthropic.com"),
           ("ANTHROPIC_MODEL", "claude-sonnet-4-20250514"),
           ("API_TIMEOUT_MS", "3000000"),
           ("CLAUDE_CODE_DISABLE_NONESSENTIAL_TRAFFIC", "1")],
          some "anthropic-claude"⟩ : Profile).env = some "https://api.anthropic.com"
    ∧ List.lookup "ANTHROPIC_MODEL"
        (⟨"Anthropic Claude", "claude",
          [("ANTHROPIC_AUTH_TOKEN", "t"),
           ("ANTHROPIC_BASE_URL", "https://api.anthropic.com"),
           ("ANTHROPIC_MODEL", "claude-sonnet-4-20250514"),
           ("API_TIMEOUT_MS", "3000000"),
           ("CLAUDE_CODE_DISABLE_NONESSENTIAL_TRAFFIC", "1")],
          some "anthropic-claude"⟩ : Profile).env = some "claude-sonnet-4-20250514"
    ∧ List.lookup "API_TIMEOUT_MS"
        (⟨"Anthropic Claude", "claude",
          [("ANTHROPIC_AUTH_TOKEN", "t"),
           ("ANTHROPIC_BASE_URL", "https://api.anthropic.com"),
           ("ANTHROPIC_MODEL", "claude-sonnet-4-20250514"),
           ("API_TIMEOUT_MS", "3000000"),
           ("CLAUDE_CODE_DISABLE_NONESSENTIAL_TRAFFIC", "1")],
          some "anthropic-claude"⟩ : Profile).env = some "3000000"
    ∧ List.lookup "CLAUDE_CODE_DISABLE_NONESSENTIAL_TRAFFIC"
        (⟨"Anthropic Claude", "claude",
          [("ANTHROPIC_AUTH_TOKEN", "t"),
           ("ANTHROPIC_BASE_URL", "https://api.anthropic.com"),
           ("ANTHROPIC_MODEL", "claude-sonnet-4-20250514"),
           ("API_TIMEOUT_MS", "3000000"),
           ("CLAUDE_CODE_DISABLE_NONESSENTIAL_TRAFFIC", "1")],
          some "anthropic-claude"⟩ : Profile).env = some "1"
    ∧ List.lookup "ANTHROPIC_AUTH_TOKEN"
        (⟨"Anthropic Claude", "claude",
          [("ANTHROPIC_AUTH_TOKEN", "t"),
           ("ANTHROPIC_BASE_URL", "https://api.anthropic.com"),
           ("ANTHROPIC_MODEL", "claude-sonnet-4-20250514"),
           ("API_TIMEOUT_MS", "3000000"),
           ("CLAUDE_CODE_DISABLE_NONESSENTIAL_TRAFFIC", "1")],
          some "anthropic-claude"⟩ : Profile).env = some (jsTrim "t") :=
  (configure_claude_defaults none Mode.add ⟨[""], "", false, "t", "", ""⟩
      ⟨"", "", "t", "", ""⟩ rfl rfl rfl rfl rfl rfl).1
    ⟨"Anthropic Claude", "claude",
      [("ANTHROPIC_AUTH_TOKEN", "t"),
       ("ANTHROPIC_BASE_URL", "https://api.anthropic.com"),
       ("ANTHROPIC_MODEL", "claude-sonnet-4-20250514"),
       ("API_TIMEOUT_MS", "3000000"),
       ("CLAUDE_CODE_DISABLE_NONESSENTIAL_TRAFFIC", "1")],
      some "anthropic-claude"⟩ (by decide)
